import Mathlib

/-!
Verification of the go-sdk repository against its specification.

Part 1 embeds the `env` package's serialization/parsing pair
(`Vars.DelimitedString` and `Parse`) directly from the source.

Part 2 models the `cron` JobManager from the specification: the manager
implementation itself is not part of the provided sources (only its test
file is), so those definitions are spec models, each marked as such.
-/

namespace env

/-- Vars models the Go `Vars` map (`map[string]string`) as an
insertion-ordered association list, together with the Go map operations
`Parse` uses: membership lookup and keyed assignment. -/
abbrev Vars := List (String × String)

/-- Go `_, exists := ret[key]` membership test. -/
def Vars.containsKey (ev : Vars) (k : String) : Bool :=
  ev.any (fun p => p.1 == k)

/-- Go `ret[key] = value` assignment: overwrite if present, append if not. -/
def Vars.insertPair (ev : Vars) (k v : String) : Vars :=
  if ev.containsKey k then
    ev.map (fun p => if p.1 == k then (k, v) else p)
  else
    ev ++ [(k, v)]

/-- ValueDelimiter ("=") between a key and a value. -/
def valueDelimiter : String := "="

/-- QuoteDelimiter (`"`) indicating a string literal. -/
def quoteDelimiter : String := "\""

/-- EscapeDelimiter ("\") escaping the next character. -/
def escapeDelimiter : String := "\\"

/-- SpaceDelimiter (" "), ignored unless quoted. -/
def spaceDelimiter : String := " "

/-- DFA states of the parsing table, mirroring the `dfaState` enum
(`rootState = 0`, `escapeState = 1`, `valueState = 2`, `quotedState = 3`,
`quotedLiteralState = 4`). -/
inductive dfaState
  | rootState
  | escapeState
  | valueState
  | quotedState
  | quotedLiteralState
deriving DecidableEq, Repr

/-- SemicolonDelimiter (";") between key-value pairs. -/
def SemicolonDelimiter : String := ";"

/-- CommaDelimiter (",") between key-value pairs. -/
def CommaDelimiter : String := ","

/-- Go `unicode.IsSpace`: for Latin-1 runes the characters
tab, newline, vertical tab, form feed, carriage return, space, NEL (U+0085)
and NBSP (U+00A0); above Latin-1 the `White_Space` table entries. -/
def goIsSpace (c : Char) : Bool :=
  if c.val ≤ 0xFF then
    c == '\t' || c == '\n' || c.val == 0x0B || c.val == 0x0C ||
      c == '\r' || c == ' ' || c.val == 0x85 || c.val == 0xA0
  else
    c.val == 0x1680 || (0x2000 ≤ c.val && c.val ≤ 0x200A) ||
      c.val == 0x2028 || c.val == 0x2029 || c.val == 0x202F ||
      c.val == 0x205F || c.val == 0x3000

/-- The mutable locals of `Parse`'s character loop: the result map being
built (`ret`), the pending `key` and `buffer` strings, the DFA `state`, and
the `valueFlag` marking that '=' was seen for the current pair. (The Go
local `value` is only ever a copy of `buffer` made at commit time, so it is
folded into the commit.) -/
structure ParseAcc where
  ret : Vars
  key : String
  buffer : String
  state : dfaState
  valueFlag : Bool
deriving DecidableEq, Repr

/-- One iteration of `Parse`'s `for _, c := range s` loop body. Errors carry
the partially built map, matching Go's `return ret, ex.New(...)`. -/
def parseStep (separator : String) (acc : ParseAcc) (c : Char) :
    Except (Vars × String) ParseAcc :=
  let char := String.singleton c
  match acc.state with
  | .rootState =>
    if char = separator then
      if acc.ret.containsKey acc.key then
        .error (acc.ret, "Duplicate keys are not allowed")
      else if acc.key.length == 0 then
        .error (acc.ret, "Empty keys are not allowed")
      else if !acc.valueFlag then
        .error (acc.ret, "Expected '='")
      else
        .ok { ret := acc.ret.insertPair acc.key acc.buffer, key := "",
              buffer := "", state := .rootState, valueFlag := false }
    else if char = escapeDelimiter then
      .ok { acc with state := .escapeState }
    else if char = valueDelimiter then
      .ok { acc with state := .valueState }
    else if char = quoteDelimiter then
      .ok { acc with state := .quotedState }
    else if goIsSpace c then
      .ok acc
    else
      .ok { acc with buffer := acc.buffer ++ char }
  | .escapeState =>
    .ok { acc with buffer := acc.buffer ++ char, state := .rootState }
  | .valueState =>
    if acc.buffer.length == 0 then
      .error (acc.ret, "Empty keys are not allowed")
    else
      let acc' : ParseAcc :=
        { acc with key := acc.buffer, buffer := "", valueFlag := true }
      if char = quoteDelimiter then
        .ok { acc' with state := .quotedState }
      else if !(goIsSpace c) then
        .ok { acc' with buffer := acc'.buffer ++ char, state := .rootState }
      else
        .ok { acc' with state := .rootState }
  | .quotedState =>
    if char = escapeDelimiter then
      .ok { acc with state := .quotedLiteralState }
    else if char = quoteDelimiter then
      .ok { acc with state := .rootState }
    else
      .ok { acc with buffer := acc.buffer ++ char }
  | .quotedLiteralState =>
    .ok { acc with buffer := acc.buffer ++ char, state := .quotedState }

/-- The character loop of `Parse`, folded over the input's characters. -/
def parseLoop (separator : String) (acc : ParseAcc) :
    List Char → Except (Vars × String) ParseAcc
  | [] => .ok acc
  | c :: cs =>
    match parseStep separator acc c with
    | .error e => .error e
    | .ok acc' => parseLoop separator acc' cs

/-- The final `switch state` of `Parse`: only the root state is a valid
ending state; a trailing pair without a separator is committed there. -/
def parseFinish (acc : ParseAcc) : Vars × Option String :=
  match acc.state with
  | .rootState =>
    if acc.buffer.length > 0 || acc.key.length > 0 then
      if !acc.valueFlag then (acc.ret, some "Expected '='")
      else (acc.ret.insertPair acc.key acc.buffer, none)
    else (acc.ret, none)
  | .escapeState => (acc.ret, some "Ended input on an escape delimiter ('\\')")
  | .valueState => (acc.ret, some "Failed to assign a value to some key")
  | .quotedState => (acc.ret, some "Unclosed quote")
  | .quotedLiteralState =>
    (acc.ret, some "Ended input on an escape delimiter ('\\')")

/-- The initial loop state of `Parse`: empty map, empty buffers, root
state, `valueFlag` false. -/
def initAcc : ParseAcc :=
  { ret := [], key := "", buffer := "", state := .rootState,
    valueFlag := false }

/-- Parse uses a state machine to parse an input string into the `Vars`
type, returning the (possibly partial) map and the error, mirroring the Go
signature `Parse(s string, separator EnvPairDelimiter) (Vars, error)`. -/
def Parse (s : String) (separator : String) : Vars × Option String :=
  match parseLoop separator initAcc s.data with
  | .error e => (e.1, some e.2)
  | .ok acc => parseFinish acc

/-- isToken returns whether a string is a special token that would need to
be escaped. -/
def isToken (s : String) (delimiter : String) : Bool :=
  s == delimiter || s == valueDelimiter || s == quoteDelimiter ||
    s == escapeDelimiter

/-- escapeString takes a string and escapes any special characters so that
the string can be serialized properly. -/
def escapeString (s : String) (delimiter : String) : String :=
  s.data.foldl
    (fun escaped r =>
      let char := String.singleton r
      (if isToken char delimiter then escaped ++ escapeDelimiter else escaped)
        ++ char)
    ""

/-- DelimitedString converts environment variables to a string
representation: each nonempty-keyed pair is serialized as
`"<escaped key>"="<escaped value>"<separator>` and appended. -/
def Vars.DelimitedString (ev : Vars) (separator : String) : String :=
  ev.foldl
    (fun res kv =>
      if kv.1 != "" then
        res ++ (quoteDelimiter ++ escapeString kv.1 separator ++
          quoteDelimiter ++ valueDelimiter ++ quoteDelimiter ++
          escapeString kv.2 separator ++ quoteDelimiter ++ separator)
      else res)
    ""

/-- Character-level form of `escapeString`: each character that `isToken`
recognizes is preceded by the escape character. -/
def escChars (delimiter : String) : List Char → List Char
  | [] => []
  | c :: cs =>
    (if isToken (String.singleton c) delimiter then ['\\', c] else [c]) ++
      escChars delimiter cs

/-- Character-level form of the serialized pair
`"<escaped key>"="<escaped value>"<separator>` that `DelimitedString`
emits for one nonempty-keyed entry. -/
def pairChars (sep : String) (k v : String) : List Char :=
  ['"'] ++ escChars sep k.data ++ ['"'] ++ ['='] ++ ['"'] ++
    escChars sep v.data ++ ['"'] ++ sep.data

/-- Character-level form of the whole `DelimitedString` output. -/
def serialChars (sep : String) : Vars → List Char
  | [] => []
  | (k, v) :: tl =>
    (if k != "" then pairChars sep k v else []) ++ serialChars sep tl

/-- The loop state between two committed pairs: some map built so far,
empty buffers, root state, `valueFlag` clear. -/
def cleanAcc (ret : Vars) : ParseAcc :=
  { ret := ret, key := "", buffer := "", state := .rootState,
    valueFlag := false }

end env

namespace cron

/-- Modelled from the spec: the Schedule abstraction with its concrete
variants Immediate, FixedTime(t), Interval(d) and Never; times and
durations are abstract `Nat` instants. -/
inductive Schedule
  | immediate
  | fixedTime (t : Nat)
  | interval (d : Nat)
  | never
deriving DecidableEq, Repr

/-- Modelled from the spec: `nextRunTime(previousRunTimeOrNone) ->
Option<time>`. Immediate fires once ("now" when no previous run);
FixedTime(t) fires once at `t`; Interval(d) returns `previous + d` when a
previous run time is present, else "now"; Never always returns none. The
current instant "now" is passed explicitly. -/
def nextRunTime (s : Schedule) (previous : Option Nat) (now : Nat) :
    Option Nat :=
  match s with
  | .immediate => match previous with
    | none => some now
    | some _ => none
  | .fixedTime t => match previous with
    | none => some t
    | some _ => none
  | .interval d => match previous with
    | none => some now
    | some p => some (p + d)
  | .never => none

/-- Modelled from the spec: default for the enabled provider when the job
does not implement the capability. -/
def DefaultEnabled : Bool := true

/-- Modelled from the spec: default for the serial provider. -/
def DefaultSerial : Bool := true

/-- Modelled from the spec: default for the should-trigger-listeners
provider. -/
def DefaultShouldTriggerListeners : Bool := true

/-- Modelled from the spec: default for the should-write-output
provider. -/
def DefaultShouldWriteOutput : Bool := true

/-- Modelled from the spec: a job as seen at registration time — a name
plus the optional capabilities `enabled()`, `serial()`,
`shouldTriggerListeners()`, `shouldWriteOutput()`; `none` means the job
does not implement the capability. -/
structure Job where
  name : String
  enabled : Option Bool
  serial : Option Bool
  shouldTriggerListeners : Option Bool
  shouldWriteOutput : Option Bool
deriving DecidableEq, Repr

/-- Modelled from the spec: the JobMeta registration record with the four
resolved capability providers and the administrative `disabled`
override flag. -/
structure JobMeta where
  name : String
  enabledProvider : Bool
  serialProvider : Bool
  shouldTriggerListenersProvider : Bool
  shouldWriteOutputProvider : Bool
  disabled : Bool
deriving DecidableEq, Repr

/-- Modelled from the spec: `LoadJob` resolves each optional capability to
the corresponding default when the job does not implement it; the
administrative disabled flag starts cleared. -/
def newJobMeta (j : Job) : JobMeta :=
  { name := j.name,
    enabledProvider := j.enabled.getD DefaultEnabled,
    serialProvider := j.serial.getD DefaultSerial,
    shouldTriggerListenersProvider :=
      j.shouldTriggerListeners.getD DefaultShouldTriggerListeners,
    shouldWriteOutputProvider :=
      j.shouldWriteOutput.getD DefaultShouldWriteOutput,
    disabled := false }

/-- Modelled from the spec: the JobManager's registry of JobMeta plus a log
of the invocations it has launched (by job name), recording the effect of
`RunJob` launches. -/
structure JobManager where
  jobs : List JobMeta
  invocations : List String
deriving DecidableEq, Repr

/-- Modelled from the spec: a manager with an empty registry. -/
def newManager : JobManager := { jobs := [], invocations := [] }

/-- Modelled from the spec: registry lookup by job name. -/
def JobManager.findJob (jm : JobManager) (name : String) : Option JobMeta :=
  jm.jobs.find? (fun m => m.name == name)

/-- Modelled from the spec: `LoadJob(job)` fails with a duplicate-name
error when the name is already registered (leaving the registry
unchanged), else appends the resolved JobMeta. -/
def LoadJob (jm : JobManager) (j : Job) : JobManager × Option String :=
  match jm.findJob j.name with
  | some _ => (jm, some ("job with name `" ++ j.name ++ "` already loaded"))
  | none => ({ jm with jobs := jm.jobs ++ [newJobMeta j] }, none)

/-- Modelled from the spec: `Job(name)` read accessor; fails with a
not-found error for unknown names. -/
def JobManager.job (jm : JobManager) (name : String) :
    Option JobMeta × Option String :=
  match jm.findJob name with
  | some m => (some m, none)
  | none => (none, some ("job `" ++ name ++ "` not found"))

/-- Modelled from the spec: `RunJob(name)` fails with a not-found error for
unknown names (launching nothing), fails with a disabled error when the
administrative override is set, and otherwise launches one ad-hoc
invocation (appended to the invocation log). -/
def RunJob (jm : JobManager) (name : String) : JobManager × Option String :=
  match jm.findJob name with
  | none => (jm, some ("job `" ++ name ++ "` not found"))
  | some m =>
    if m.disabled then (jm, some ("job `" ++ name ++ "` disabled"))
    else ({ jm with invocations := jm.invocations ++ [name] }, none)

/-- Modelled from the spec: set the administrative disabled flag of the
first registry entry with the given name. -/
def setDisabled : List JobMeta → String → Bool → List JobMeta
  | [], _, _ => []
  | m :: rest, name, v =>
    if m.name == name then { m with disabled := v } :: rest
    else m :: setDisabled rest name v

/-- Modelled from the spec: `DisableJob(name)` sets the administrative
override; not-found error for unknown names. -/
def DisableJob (jm : JobManager) (name : String) :
    JobManager × Option String :=
  match jm.findJob name with
  | none => (jm, some ("job `" ++ name ++ "` not found"))
  | some _ => ({ jm with jobs := setDisabled jm.jobs name true }, none)

/-- Modelled from the spec: `EnableJob(name)` clears the administrative
override; not-found error for unknown names. -/
def EnableJob (jm : JobManager) (name : String) :
    JobManager × Option String :=
  match jm.findJob name with
  | none => (jm, some ("job `" ++ name ++ "` not found"))
  | some _ => ({ jm with jobs := setDisabled jm.jobs name false }, none)

/-- Modelled from the spec and pinned by the repository's test
`TestEnabledProvider` (src/cron/job_manager_test.go): `IsDisabled(name)`
reports the administrative override OR the job's own enabled provider
reporting false — after `EnableJob`, the test still observes
`IsDisabled = true` for a job whose `enabled()` is false, so the
provider participates in the answer. Unknown names report false. -/
def IsDisabled (jm : JobManager) (name : String) : Bool :=
  match jm.findJob name with
  | some m => m.disabled || !m.enabledProvider
  | none => false

/-- Modelled from the spec: the outcome of one execution of a job's
`execute` operation — normal success, a returned error, or a panic
carrying its message. -/
inductive ExecOutcome
  | success
  | failure (msg : String)
  | panicked (msg : String)
deriving DecidableEq, Repr

/-- Modelled from the spec: the recover boundary of the invocation
wrapper — a panic raised during execution is intercepted and converted
into a regular error outcome with the message preserved; the result is
always a plain optional error, never a re-raised panic. -/
def recoverExec : ExecOutcome → Option String
  | .success => none
  | .failure m => some m
  | .panicked m => some m

/-- Modelled from the spec: the JobInvocation record — job name, start
time, completion time (unset while running), error (unset on success),
cancellation flag. -/
structure JobInvocation where
  name : String
  startTime : Nat
  endTime : Option Nat
  err : Option String
  cancelled : Bool
deriving DecidableEq, Repr

/-- Modelled from the spec: a freshly allocated JobInvocation at launch. -/
def startInvocation (name : String) (t : Nat) : JobInvocation :=
  { name := name, startTime := t, endTime := none, err := none,
    cancelled := false }

/-- Modelled from the spec: the completion path records the end time and
the (recovered) error on the invocation. -/
def completeInvocation (ji : JobInvocation) (t : Nat)
    (outcome : ExecOutcome) : JobInvocation :=
  { ji with endTime := some t, err := recoverExec outcome }

/-- Modelled from the spec: one heartbeat tick launching and completing
every listed job's invocation independently; each job is a name paired
with what its `execute` does this tick. One job's panic cannot affect the
processing of the others. -/
def heartbeatTick (jobs : List (String × ExecOutcome)) (t : Nat) :
    List JobInvocation :=
  jobs.map (fun jo => completeInvocation (startInvocation jo.1 t) t jo.2)

/-- Modelled from the spec: lifecycle notifications dispatched on the
health-flag transition edges. -/
inductive HealthNotification
  | onBroken
  | onFixed
deriving DecidableEq, Repr

/-- Modelled from the spec: the health-flag update on one invocation
completion (`succeeded = true` for a completion with no error): the flag
becomes Broken on a failure and Healthy on a success, and exactly the
Healthy→Broken edge dispatches `onBroken`, exactly the Broken→Healthy edge
dispatches `onFixed`; repeated failures while Broken dispatch nothing. -/
def healthStep (healthy : Bool) (succeeded : Bool) :
    Bool × List HealthNotification :=
  if succeeded then
    if healthy then (true, []) else (true, [.onFixed])
  else
    if healthy then (false, [.onBroken]) else (false, [])

/-- Modelled from the spec: folding the health-flag update over a sequence
of invocation completions, collecting the dispatched notifications in
order. -/
def healthRun (healthy : Bool) :
    List Bool → Bool × List HealthNotification
  | [] => (healthy, [])
  | o :: rest =>
    let s := healthStep healthy o
    let r := healthRun s.1 rest
    (r.1, s.2 ++ r.2)

/-- Modelled from the spec: one timed event of a single serial job — an
invocation start or an invocation completion at an abstract instant. -/
inductive JobEvent
  | start (t : Nat)
  | finish (t : Nat)
deriving DecidableEq, Repr

/-- Modelled from the spec: the per-job run-state the manager maintains
for a serial job — the running flag, the start time of the in-flight
invocation, the completed `[start, end)` intervals in completion order,
and the time of the last observed event. -/
structure SerialState where
  running : Bool
  current : Option Nat
  done : List (Nat × Nat)
  clock : Nat
deriving DecidableEq, Repr

/-- Modelled from the spec: the serial-job transition relation. A start is
admissible only while the running flag is clear (the serial gate) and sets
it together with the invocation start time; a finish is admissible only
while an invocation is in flight and records its `[start, end)` interval
and clears the flag. Events carry nondecreasing times (`clock`). An
inadmissible event yields `none`. -/
def serialStep (st : SerialState) (e : JobEvent) : Option SerialState :=
  match e with
  | .start t =>
    if st.running then none
    else if st.clock ≤ t then
      some { running := true, current := some t, done := st.done,
             clock := t }
    else none
  | .finish t =>
    match st.current with
    | some s =>
      if st.clock ≤ t then
        some { running := false, current := none,
               done := st.done ++ [(s, t)], clock := t }
      else none
    | none => none

/-- Modelled from the spec: running the serial-job transition relation
over a sequence of events; `none` when some event was inadmissible. -/
def serialRun (st : SerialState) : List JobEvent → Option SerialState
  | [] => some st
  | e :: es =>
    match serialStep st e with
    | none => none
    | some st' => serialRun st' es

/-- Modelled from the spec: the initial per-job run-state — idle, nothing
completed, clock at zero. -/
def initSerial : SerialState :=
  { running := false, current := none, done := [], clock := 0 }

/-- Two half-open `[start, end)` intervals overlap when some instant lies
in both. -/
def intervalsOverlap (a b : Nat × Nat) : Prop :=
  max a.1 b.1 < min a.2 b.2

instance (a b : Nat × Nat) : Decidable (intervalsOverlap a b) := by
  unfold intervalsOverlap
  infer_instance

/-- The inductive invariant of the serial-job run-state: every completed
interval is well-formed and lies in the past, any in-flight invocation
started no earlier than every completed interval ended, and the completed
intervals are chained (each ends before the next starts). -/
def SerialInv (st : SerialState) : Prop :=
  (∀ iv ∈ st.done, iv.1 ≤ iv.2 ∧ iv.2 ≤ st.clock) ∧
  (∀ s, st.current = some s → s ≤ st.clock ∧ ∀ iv ∈ st.done, iv.2 ≤ s) ∧
  st.done.Pairwise (fun a b => a.2 ≤ b.1)

end cron

namespace cron

/-- Helper: `find?` skips a prefix in which nothing matches. -/
theorem find_append_of_none {α : Type} (p : α → Bool) (l1 l2 : List α)
    (h : l1.find? p = none) : (l1 ++ l2).find? p = l2.find? p := by
  induction l1 with
  | nil => rfl
  | cons a l ih =>
    cases hpa : p a with
    | true => rw [List.find?_cons_of_pos _ hpa] at h; cases h
    | false =>
      rw [List.find?_cons_of_neg _ (by simp [hpa])] at h
      rw [List.cons_append, List.find?_cons_of_neg _ (by simp [hpa])]
      exact ih h

/-- Claim C5: for every job with an Interval(d) schedule, `nextRunTime`
returns `previous + d` when a previous run time is present and "now" when
it is absent; in particular the result for a present previous run time does
not depend on the current instant, so no drift accumulates from execution
latency. -/
theorem interval_next_run_time_drift_free :
    (∀ (d p now : Nat),
      nextRunTime (Schedule.interval d) (some p) now = some (p + d)) ∧
    (∀ (d now : Nat),
      nextRunTime (Schedule.interval d) none now = some now) ∧
    (∀ (d p now1 now2 : Nat),
      nextRunTime (Schedule.interval d) (some p) now1 =
        nextRunTime (Schedule.interval d) (some p) now2) :=
  ⟨fun _ _ _ => rfl, fun _ _ => rfl, fun _ _ _ _ => rfl⟩

/-- Claim C6: for every job that implements none of the optional
enabled/serial/trigger-listeners/write-output capabilities, `LoadJob`
registers a JobMeta whose four resolved providers all report `true`, the
stated defaults. -/
theorem load_job_resolves_default_providers (jm : JobManager) (j : Job)
    (hfresh : jm.findJob j.name = none)
    (h1 : j.enabled = none) (h2 : j.serial = none)
    (h3 : j.shouldTriggerListeners = none)
    (h4 : j.shouldWriteOutput = none) :
    (LoadJob jm j).1.findJob j.name = some (newJobMeta j) ∧
    (newJobMeta j).enabledProvider = true ∧
    (newJobMeta j).serialProvider = true ∧
    (newJobMeta j).shouldTriggerListenersProvider = true ∧
    (newJobMeta j).shouldWriteOutputProvider = true ∧
    DefaultEnabled = true ∧ DefaultSerial = true ∧
    DefaultShouldTriggerListeners = true ∧
    DefaultShouldWriteOutput = true := by
  refine ⟨?_, ?_, ?_, ?_, ?_, rfl, rfl, rfl, rfl⟩
  · unfold LoadJob
    rw [hfresh]
    unfold JobManager.findJob at hfresh ⊢
    rw [find_append_of_none _ _ _ hfresh]
    simp [newJobMeta]
  · simp [newJobMeta, h1, DefaultEnabled]
  · simp [newJobMeta, h2, DefaultSerial]
  · simp [newJobMeta, h3, DefaultShouldTriggerListeners]
  · simp [newJobMeta, h4, DefaultShouldWriteOutput]

/-- Witness for C6 at the test's minimal job. -/
theorem load_job_resolves_default_providers_witness :
    (LoadJob newManager
        ⟨"load-job-test-minimum", none, none, none, none⟩).1.findJob
        "load-job-test-minimum" =
      some (newJobMeta ⟨"load-job-test-minimum", none, none, none, none⟩) ∧
    (newJobMeta
        ⟨"load-job-test-minimum", none, none, none, none⟩).enabledProvider =
      true :=
  have h := load_job_resolves_default_providers newManager
    ⟨"load-job-test-minimum", none, none, none, none⟩ rfl rfl rfl rfl rfl
  ⟨h.1, h.2.1⟩

/-- Claim C7: loading a job whose name is already registered fails with a
duplicate-name error, and the failure is fatal to that call only — the
manager, in particular the originally loaded job, is unchanged. -/
theorem load_job_duplicate_name_fails (jm : JobManager) (j : Job)
    (m : JobMeta) (h : jm.findJob j.name = some m) :
    (LoadJob jm j).2 =
      some ("job with name `" ++ j.name ++ "` already loaded") ∧
    (LoadJob jm j).1 = jm ∧
    (LoadJob jm j).1.findJob j.name = some m := by
  unfold LoadJob
  rw [h]
  exact ⟨rfl, rfl, h⟩

/-- Witness for C7: loading the same name twice. -/
theorem load_job_duplicate_name_fails_witness :
    (LoadJob (LoadJob newManager ⟨"foo", none, none, none, none⟩).1
        ⟨"foo", none, none, none, none⟩).1 =
      (LoadJob newManager ⟨"foo", none, none, none, none⟩).1 :=
  (load_job_duplicate_name_fails
    (LoadJob newManager ⟨"foo", none, none, none, none⟩).1
    ⟨"foo", none, none, none, none⟩
    (newJobMeta ⟨"foo", none, none, none, none⟩) rfl).2.1

/-- Claim C8: for names absent from the registry, `RunJob` returns a
not-found error and launches no invocation (the manager, including its
invocation log, is unchanged), and `Job` returns a not-found error with no
JobMeta. -/
theorem run_job_unknown_not_found (jm : JobManager) (name : String)
    (h : jm.findJob name = none) :
    (RunJob jm name).1 = jm ∧
    (RunJob jm name).2 = some ("job `" ++ name ++ "` not found") ∧
    (jm.job name).1 = none ∧
    (jm.job name).2 = some ("job `" ++ name ++ "` not found") := by
  unfold RunJob JobManager.job
  rw [h]
  exact ⟨rfl, rfl, rfl, rfl⟩

/-- Witness for C8 on an empty manager. -/
theorem run_job_unknown_not_found_witness :
    (RunJob newManager "unknown").1 = newManager ∧
    (RunJob newManager "unknown").2 = some ("job `unknown` not found") :=
  have h := run_job_unknown_not_found newManager "unknown" rfl
  ⟨h.1, h.2.1⟩

/-- Claim C2: a panic during execution is intercepted at the invocation
boundary and recorded as a regular error on that JobInvocation with the
panic message preserved, and a heartbeat tick processes every other job's
invocation exactly as it would without the panicking job. -/
theorem panic_recovered_and_isolated :
    (∀ (name : String) (t : Nat) (msg : String),
      (completeInvocation (startInvocation name t) t
          (ExecOutcome.panicked msg)).err = some msg) ∧
    (∀ (jobs1 jobs2 : List (String × ExecOutcome)) (name msg : String)
        (t : Nat),
      heartbeatTick (jobs1 ++ (name, ExecOutcome.panicked msg) :: jobs2) t =
        heartbeatTick jobs1 t ++
          completeInvocation (startInvocation name t) t
            (ExecOutcome.panicked msg) :: heartbeatTick jobs2 t) := by
  constructor
  · intro name t msg
    rfl
  · intro jobs1 jobs2 name msg t
    simp [heartbeatTick]

/-- Helper: once Broken, further failures dispatch no notification. -/
theorem health_run_broken_failures (k : Nat) :
    healthRun false (List.replicate k false) = (false, []) := by
  induction k with
  | zero => rfl
  | succ n ih => simp [List.replicate_succ, healthRun, healthStep, ih]

/-- Helper: from Broken, failures followed by one success dispatch exactly
one `onFixed`. -/
theorem health_run_broken_then_success (k : Nat) :
    healthRun false (List.replicate k false ++ [true]) =
      (true, [HealthNotification.onFixed]) := by
  induction k with
  | zero => rfl
  | succ n ih => simp [List.replicate_succ, healthRun, healthStep, ih]

/-- Claim C3: the health flag moves to the completion's outcome, a
notification is dispatched exactly on the two transition edges
(Healthy→Broken dispatches `onBroken`, Broken→Healthy dispatches
`onFixed`), and over a whole sequence of completions a run of k+1
consecutive failures from Healthy dispatches exactly one `onBroken`, with
the next success dispatching exactly one `onFixed`. -/
theorem health_flag_transition_notifications :
    (∀ (h s : Bool), healthStep h s =
      (s, if h == s then []
          else if s then [HealthNotification.onFixed]
          else [HealthNotification.onBroken])) ∧
    (∀ k : Nat, healthRun true (List.replicate (k + 1) false) =
      (false, [HealthNotification.onBroken])) ∧
    (∀ k : Nat, healthRun true (List.replicate (k + 1) false ++ [true]) =
      (true, [HealthNotification.onBroken, HealthNotification.onFixed])) := by
  refine ⟨?_, ?_, ?_⟩
  · intro h s
    cases h <;> cases s <;> rfl
  · intro k
    simp [List.replicate_succ, healthRun, healthStep,
      health_run_broken_failures k]
  · intro k
    simp [List.replicate_succ, healthRun, healthStep,
      health_run_broken_then_success k]

/-- Helper: `setDisabled` rewrites exactly the registry entry `findJob`
would return, leaving its other fields intact. -/
theorem find_setDisabled (l : List JobMeta) (name : String) (v : Bool) :
    (setDisabled l name v).find? (fun m => m.name == name) =
      (l.find? (fun m => m.name == name)).map
        (fun m => { m with disabled := v }) := by
  induction l with
  | nil => rfl
  | cons a l ih =>
    cases hpa : (a.name == name) with
    | true => simp [setDisabled, hpa, List.find?]
    | false => simp [setDisabled, hpa, List.find?, ih]

/-- Counterexample to claim C4, replaying `TestEnabledProvider`: a job
whose own enabled capability reports false is loaded, disabled, then
enabled again; `EnableJob` succeeds, yet `IsDisabled` does not return
false. -/
theorem is_disabled_admin_only_counterexample :
    (EnableJob (DisableJob (LoadJob newManager
        ⟨"testWithEnabled", some false, none, none, none⟩).1
        "testWithEnabled").1 "testWithEnabled").2 = none ∧
    ¬ (IsDisabled (EnableJob (DisableJob (LoadJob newManager
        ⟨"testWithEnabled", some false, none, none, none⟩).1
        "testWithEnabled").1 "testWithEnabled").1 "testWithEnabled" =
      false) := by
  decide

/-- Claim C4 as amended: `IsDisabled(name)` reports the administrative
override flag OR'd with the job's own enabled provider reporting false;
after `EnableJob(name)` succeeds the override is cleared, so `IsDisabled`
returns exactly the negation of the job's enabled provider. -/
theorem is_disabled_includes_enabled_provider (jm : JobManager)
    (name : String) (m : JobMeta) (h : jm.findJob name = some m) :
    IsDisabled jm name = (m.disabled || !m.enabledProvider) ∧
    (EnableJob jm name).2 = none ∧
    IsDisabled (EnableJob jm name).1 name = !m.enabledProvider := by
  refine ⟨?_, ?_, ?_⟩
  · unfold IsDisabled
    rw [h]
  · unfold EnableJob
    rw [h]
  · unfold EnableJob
    rw [h]
    unfold IsDisabled JobManager.findJob
    unfold JobManager.findJob at h
    rw [find_setDisabled, h]
    simp

/-- Witness for the amended C4 on the `TestEnabledProvider` scenario. -/
theorem is_disabled_includes_enabled_provider_witness :
    IsDisabled (DisableJob (LoadJob newManager
        ⟨"testWithEnabled", some false, none, none, none⟩).1
        "testWithEnabled").1 "testWithEnabled" = (true || !false) :=
  (is_disabled_includes_enabled_provider
    (DisableJob (LoadJob newManager
      ⟨"testWithEnabled", some false, none, none, none⟩).1
      "testWithEnabled").1
    "testWithEnabled"
    ⟨"testWithEnabled", false, true, true, true, true⟩ rfl).1

/-- Helper: one admissible serial-job event preserves the run-state
invariant. -/
theorem serial_step_preserves_inv (st st' : SerialState) (e : JobEvent)
    (hinv : SerialInv st) (h : serialStep st e = some st') :
    SerialInv st' := by
  obtain ⟨hdone, hcur, hchain⟩ := hinv
  cases e with
  | start t =>
    simp only [serialStep] at h
    by_cases hr : st.running = true
    · rw [if_pos hr] at h
      cases h
    · rw [if_neg hr] at h
      by_cases hc : st.clock ≤ t
      · rw [if_pos hc] at h
        injection h with h
        subst h
        refine ⟨?_, ?_, ?_⟩
        · intro iv hiv
          exact ⟨(hdone iv hiv).1, le_trans (hdone iv hiv).2 hc⟩
        · intro s hs
          injection hs with hs
          subst hs
          exact ⟨le_refl t, fun iv hiv => le_trans (hdone iv hiv).2 hc⟩
        · exact hchain
      · rw [if_neg hc] at h
        cases h
  | finish t =>
    simp only [serialStep] at h
    cases hcu : st.current with
    | none =>
      simp only [hcu] at h
      cases h
    | some s =>
      simp only [hcu] at h
      by_cases hc : st.clock ≤ t
      · rw [if_pos hc] at h
        injection h with h
        subst h
        have hs := hcur s hcu
        refine ⟨?_, ?_, ?_⟩
        · intro iv hiv
          simp only [List.mem_append, List.mem_singleton] at hiv
          cases hiv with
          | inl hin =>
            exact ⟨(hdone iv hin).1, le_trans (hdone iv hin).2 hc⟩
          | inr heq =>
            subst heq
            exact ⟨le_trans hs.1 hc, le_refl t⟩
        · intro s' hs'
          cases hs'
        · rw [List.pairwise_append]
          refine ⟨hchain, List.pairwise_singleton _ _, ?_⟩
          intro a ha b hb
          simp only [List.mem_singleton] at hb
          subst hb
          exact hs.2 a ha
      · rw [if_neg hc] at h
        cases h

/-- Helper: the invariant holds after any admissible event sequence. -/
theorem serial_run_preserves_inv (es : List JobEvent) :
    ∀ (st st' : SerialState), SerialInv st →
      serialRun st es = some st' → SerialInv st' := by
  induction es with
  | nil =>
    intro st st' hinv h
    injection h with h
    subst h
    exact hinv
  | cons e es ih =>
    intro st st' hinv h
    unfold serialRun at h
    cases hstep : serialStep st e with
    | none =>
      rw [hstep] at h
      cases h
    | some st1 =>
      rw [hstep] at h
      exact ih st1 st' (serial_step_preserves_inv st st1 e hinv hstep) h

/-- Claim C1: for a serial job, every admissible sequence of invocation
events — where the serial gate blocks a start while the running flag is
set, and the flag stays set from each start to its completion — yields
pairwise non-overlapping completed `[start, end)` intervals. -/
theorem serial_job_no_overlapping_invocations (es : List JobEvent)
    (st' : SerialState) (h : serialRun initSerial es = some st') :
    List.Pairwise (fun a b => ¬ intervalsOverlap a b) st'.done := by
  have hinit : SerialInv initSerial := by
    refine ⟨?_, ?_, ?_⟩
    · intro iv hiv
      simp [initSerial] at hiv
    · intro s hs
      simp [initSerial] at hs
    · exact List.Pairwise.nil
  have hinv : SerialInv st' :=
    serial_run_preserves_inv es initSerial st' hinit h
  obtain ⟨hdone, _, hchain⟩ := hinv
  refine hchain.imp ?_
  intro a b hab
  intro hover
  unfold intervalsOverlap at hover
  have h1 : b.1 < a.2 :=
    lt_of_le_of_lt (le_max_right _ _)
      (lt_of_lt_of_le hover (min_le_left _ _))
  omega

/-- Witness for C1 on a concrete two-invocation event sequence. -/
theorem serial_job_no_overlapping_invocations_witness :
    List.Pairwise (fun a b => ¬ intervalsOverlap a b)
      ([(0, 1), (1, 2)] : List (Nat × Nat)) := by
  have h := serial_job_no_overlapping_invocations
    [JobEvent.start 0, JobEvent.finish 1, JobEvent.start 1,
      JobEvent.finish 2]
    { running := false, current := none, done := [(0, 1), (1, 2)],
      clock := 2 }
    rfl
  simpa using h

end cron

namespace env

/-- Helper: the outcome of `parseFinish` is determined by the final DFA
state and buffers exactly as the final `switch` of `Parse` writes it. -/
theorem parseFinish_cases (acc : ParseAcc) :
    ((parseFinish acc).2 = none →
      acc.state = dfaState.rootState ∧
      ((acc.buffer.length = 0 ∧ acc.key.length = 0) ∨
        acc.valueFlag = true)) ∧
    (acc.state = dfaState.quotedState →
      (parseFinish acc).2 = some "Unclosed quote") ∧
    (acc.state = dfaState.escapeState ∨
        acc.state = dfaState.quotedLiteralState →
      (parseFinish acc).2 = some "Ended input on an escape delimiter ('\\')") ∧
    (acc.state = dfaState.valueState →
      (parseFinish acc).2 = some "Failed to assign a value to some key") ∧
    (acc.state = dfaState.rootState → acc.valueFlag = false →
      (0 < acc.buffer.length ∨ 0 < acc.key.length) →
      (parseFinish acc).2 = some "Expected '='") := by
  obtain ⟨ret, key, buffer, state, vf⟩ := acc
  cases state with
  | rootState =>
    refine ⟨fun hnone => ⟨rfl, ?_⟩, fun h => ?_, fun h => ?_, fun h => ?_,
      fun _ hvf hlen => ?_⟩
    · cases hvf : vf with
      | true => exact Or.inr rfl
      | false =>
        left
        simp only [parseFinish, hvf, Bool.not_false, if_true] at hnone
        split_ifs at hnone with h1
        simp at h1
        dsimp only
        omega
    · simp at h
    · rcases h with h | h <;> simp at h
    · simp at h
    · dsimp only at hvf hlen
      simp only [parseFinish, hvf, Bool.not_false, if_true]
      split_ifs with h1
      · rfl
      · simp at h1
        rcases hlen with hl | hl <;> omega
  | escapeState =>
    refine ⟨fun hnone => ?_, fun h => ?_, fun _ => rfl, fun h => ?_,
      fun h => ?_⟩
    · simp [parseFinish] at hnone
    · simp at h
    · simp at h
    · simp at h
  | valueState =>
    refine ⟨fun hnone => ?_, fun h => ?_, fun h => ?_, fun _ => rfl,
      fun h => ?_⟩
    · simp [parseFinish] at hnone
    · simp at h
    · rcases h with h | h <;> simp at h
    · simp at h
  | quotedState =>
    refine ⟨fun hnone => ?_, fun _ => rfl, fun h => ?_, fun h => ?_,
      fun h => ?_⟩
    · simp [parseFinish] at hnone
    · rcases h with h | h <;> simp at h
    · simp at h
    · simp at h
  | quotedLiteralState =>
    refine ⟨fun hnone => ?_, fun h => ?_, fun _ => rfl, fun h => ?_,
      fun h => ?_⟩
    · simp [parseFinish] at hnone
    · simp at h
    · simp at h
    · simp at h

/-- Claim C10: `Parse` returns a nil error only when its DFA ends in the
root state with either empty buffers or a completed key=value pair; a run
ending in the quoted state reports "Unclosed quote", one ending in an
escape state reports "Ended input on an escape delimiter ('\\')", one
ending right after '=' reports "Failed to assign a value to some key", and
a trailing non-empty term with no '=' reports "Expected '='". -/
theorem parse_nil_error_only_at_root (s sep : String) :
    ((Parse s sep).2 = none →
      ∃ acc, parseLoop sep initAcc s.data = .ok acc ∧
        acc.state = dfaState.rootState ∧
        ((acc.buffer.length = 0 ∧ acc.key.length = 0) ∨
          acc.valueFlag = true)) ∧
    (∀ acc, parseLoop sep initAcc s.data = .ok acc →
      (acc.state = dfaState.quotedState →
        (Parse s sep).2 = some "Unclosed quote") ∧
      ((acc.state = dfaState.escapeState ∨
          acc.state = dfaState.quotedLiteralState) →
        (Parse s sep).2 = some "Ended input on an escape delimiter ('\\')") ∧
      (acc.state = dfaState.valueState →
        (Parse s sep).2 = some "Failed to assign a value to some key") ∧
      (acc.state = dfaState.rootState → acc.valueFlag = false →
        (0 < acc.buffer.length ∨ 0 < acc.key.length) →
        (Parse s sep).2 = some "Expected '='")) := by
  cases hrun : parseLoop sep initAcc s.data with
  | error e =>
    refine ⟨fun hnone => ?_, fun acc hacc => ?_⟩
    · exfalso
      simp [Parse, hrun] at hnone
    · cases hacc
  | ok acc =>
    have hp : Parse s sep = parseFinish acc := by simp [Parse, hrun]
    have hf := parseFinish_cases acc
    refine ⟨fun hnone => ?_, fun acc' hacc => ?_⟩
    · rw [hp] at hnone
      exact ⟨acc, rfl, (hf.1 hnone).1, (hf.1 hnone).2⟩
    · injection hacc with hacc
      subst hacc
      refine ⟨fun h1 => ?_, fun h2 => ?_, fun h3 => ?_,
        fun h4 h5 h6 => ?_⟩
      · rw [hp]
        exact hf.2.1 h1
      · rw [hp]
        exact hf.2.2.1 h2
      · rw [hp]
        exact hf.2.2.2.1 h3
      · rw [hp]
        exact hf.2.2.2.2 h4 h5 h6

/-- Witness for C10: an input ending inside an unclosed quote. -/
theorem parse_nil_error_only_at_root_witness :
    (Parse "\"a" ";").2 = some "Unclosed quote" :=
  ((parse_nil_error_only_at_root "\"a" ";").2
    ⟨[], "", "a", dfaState.quotedState, false⟩ rfl).1 rfl

/-- Helper: one loop iteration with a known successful step. -/
theorem parseLoop_cons_ok (sep : String) (acc acc' : ParseAcc) (c : Char)
    (cs : List Char) (h : parseStep sep acc c = .ok acc') :
    parseLoop sep acc (c :: cs) = parseLoop sep acc' cs := by
  simp only [parseLoop, h]

/-- Helper: in the root state a quote character enters the quoted state
(for the two supported pair separators). -/
theorem parseStep_root_quote (sep : String) (hs : sep = ";" ∨ sep = ",")
    (ret : Vars) (key b : String) (vf : Bool) :
    parseStep sep ⟨ret, key, b, .rootState, vf⟩ '"' =
      .ok ⟨ret, key, b, .quotedState, vf⟩ := by
  rcases hs with rfl | rfl <;> rfl

/-- Helper: in the quoted state a quote character returns to the root
state. -/
theorem parseStep_quoted_close (sep : String) (ret : Vars) (key b : String)
    (vf : Bool) :
    parseStep sep ⟨ret, key, b, .quotedState, vf⟩ '"' =
      .ok ⟨ret, key, b, .rootState, vf⟩ := rfl

/-- Helper: in the quoted state a backslash enters the quoted-literal
state. -/
theorem parseStep_quoted_escape (sep : String) (ret : Vars)
    (key b : String) (vf : Bool) :
    parseStep sep ⟨ret, key, b, .quotedState, vf⟩ '\\' =
      .ok ⟨ret, key, b, .quotedLiteralState, vf⟩ := rfl

/-- Helper: the quoted-literal state buffers any character and returns to
the quoted state. -/
theorem parseStep_quoted_literal (sep : String) (ret : Vars)
    (key b : String) (vf : Bool) (c : Char) :
    parseStep sep ⟨ret, key, b, .quotedLiteralState, vf⟩ c =
      .ok ⟨ret, key, b ++ String.singleton c, .quotedState, vf⟩ := rfl

/-- Helper: the quoted state buffers any character that is neither the
escape nor the quote delimiter. -/
theorem parseStep_quoted_plain (sep : String) (ret : Vars) (key b : String)
    (vf : Bool) (c : Char) (h1 : ¬(String.singleton c = escapeDelimiter))
    (h2 : ¬(String.singleton c = quoteDelimiter)) :
    parseStep sep ⟨ret, key, b, .quotedState, vf⟩ c =
      .ok ⟨ret, key, b ++ String.singleton c, .quotedState, vf⟩ := by
  simp only [parseStep]
  rw [if_neg h1, if_neg h2]

/-- Helper: in the root state '=' enters the value state (for the two
supported pair separators). -/
theorem parseStep_root_eq (sep : String) (hs : sep = ";" ∨ sep = ",")
    (ret : Vars) (key b : String) (vf : Bool) :
    parseStep sep ⟨ret, key, b, .rootState, vf⟩ '=' =
      .ok ⟨ret, key, b, .valueState, vf⟩ := by
  rcases hs with rfl | rfl <;> rfl

/-- Helper: in the value state, with a nonempty buffered key, a quote
commits the key and enters the quoted state for the value. -/
theorem parseStep_value_quote (sep : String) (ret : Vars) (key b : String)
    (vf : Bool) (hb : (b.length == 0) = false) :
    parseStep sep ⟨ret, key, b, .valueState, vf⟩ '"' =
      .ok ⟨ret, b, "", .quotedState, true⟩ := by
  simp only [parseStep, hb]
  rfl

/-- Helper: in the root state after a completed pair, the separator
character commits the pair (fresh nonempty key) and resets the loop
state. -/
theorem parseStep_root_sep (sep : String) (sc : Char)
    (hsc : String.singleton sc = sep) (ret : Vars) (k b : String)
    (hmem : ret.containsKey k = false) (hk : (k.length == 0) = false) :
    parseStep sep ⟨ret, k, b, .rootState, true⟩ sc =
      .ok ⟨ret ++ [(k, b)], "", "", .rootState, false⟩ := by
  simp only [parseStep]
  rw [if_pos hsc]
  simp [hmem, hk, Vars.insertPair]

/-- Helper: in the quoted state, processing the escaped form of a
character list appends exactly that list to the buffer. -/
theorem parseLoop_quoted_escChars (sep : String) (cs : List Char) :
    ∀ (rest : List Char) (ret : Vars) (key b : String) (vf : Bool),
    parseLoop sep ⟨ret, key, b, .quotedState, vf⟩ (escChars sep cs ++ rest) =
      parseLoop sep ⟨ret, key, ⟨b.data ++ cs⟩, .quotedState, vf⟩ rest := by
  induction cs with
  | nil =>
    intro rest ret key b vf
    simp only [escChars, List.nil_append, List.append_nil]
  | cons c cs ih =>
    intro rest ret key b vf
    cases htok : isToken (String.singleton c) sep with
    | true =>
      have hesc : escChars sep (c :: cs) = '\\' :: c :: escChars sep cs := by
        simp [escChars, htok]
      rw [hesc, List.cons_append, List.cons_append]
      rw [parseLoop_cons_ok sep _ _ _ _
        (parseStep_quoted_escape sep ret key b vf)]
      rw [parseLoop_cons_ok sep _ _ _ _
        (parseStep_quoted_literal sep ret key b vf c)]
      rw [ih rest ret key (b ++ String.singleton c) vf]
      have hbuf : ((b ++ String.singleton c).data ++ cs) = b.data ++ c :: cs := by
        rw [String.data_append]
        simp [String.singleton]
      rw [hbuf]
    | false =>
      have hne : ((¬(String.singleton c = sep) ∧
          ¬(String.singleton c = valueDelimiter)) ∧
          ¬(String.singleton c = quoteDelimiter)) ∧
          ¬(String.singleton c = escapeDelimiter) := by
        simpa [isToken, not_or] using htok
      have hesc : escChars sep (c :: cs) = c :: escChars sep cs := by
        simp [escChars, htok]
      rw [hesc, List.cons_append]
      rw [parseLoop_cons_ok sep _ _ _ _
        (parseStep_quoted_plain sep ret key b vf c hne.2 hne.1.2)]
      rw [ih rest ret key (b ++ String.singleton c) vf]
      have hbuf : ((b ++ String.singleton c).data ++ cs) = b.data ++ c :: cs := by
        rw [String.data_append]
        simp [String.singleton]
      rw [hbuf]

/-- Helper: the character list of `escapeString` is `escChars`. -/
theorem escapeString_data (s : String) (sep : String) :
    (escapeString s sep).data = escChars sep s.data := by
  suffices h : ∀ (cs : List Char) (acc : String),
      (List.foldl
        (fun escaped r =>
          let char := String.singleton r
          (if isToken char sep then escaped ++ escapeDelimiter else escaped)
            ++ char)
        acc cs).data = acc.data ++ escChars sep cs by
    simpa [escapeString] using h s.data ""
  intro cs
  induction cs with
  | nil =>
    intro acc
    simp [escChars]
  | cons c cs ih =>
    intro acc
    cases htok : isToken (String.singleton c) sep with
    | true =>
      simp only [List.foldl_cons, escChars, htok, if_true]
      rw [ih]
      simp [String.data_append, String.singleton, escapeDelimiter]
    | false =>
      simp only [List.foldl_cons, escChars, htok, if_false]
      rw [ih]
      simp [String.data_append, String.singleton]

/-- Helper: the character list of `DelimitedString` is `serialChars`. -/
theorem delimitedString_data (ev : Vars) (sep : String) :
    (Vars.DelimitedString ev sep).data = serialChars sep ev := by
  suffices h : ∀ (l : Vars) (acc : String),
      (List.foldl
        (fun res kv =>
          if kv.1 != "" then
            res ++ (quoteDelimiter ++ escapeString kv.1 sep ++
              quoteDelimiter ++ valueDelimiter ++ quoteDelimiter ++
              escapeString kv.2 sep ++ quoteDelimiter ++ sep)
          else res)
        acc l).data = acc.data ++ serialChars sep l by
    simpa [Vars.DelimitedString] using h ev ""
  have hf : ∀ (acc : String) (kv : String × String),
      (if (kv.1 != "") = true then
        acc ++ (quoteDelimiter ++ escapeString kv.1 sep ++
          quoteDelimiter ++ valueDelimiter ++ quoteDelimiter ++
          escapeString kv.2 sep ++ quoteDelimiter ++ sep)
      else acc).data =
      acc.data ++ (if (kv.1 != "") = true then
        pairChars sep kv.1 kv.2 else []) := by
    intro acc kv
    cases hk : (kv.1 != "") with
    | true =>
      simp only [hk, if_true]
      simp [String.data_append, escapeString_data, pairChars,
        quoteDelimiter, valueDelimiter, List.append_assoc]
    | false =>
      simp [hk]
  intro l
  induction l with
  | nil =>
    intro acc
    simp [serialChars]
  | cons kv tl ih =>
    intro acc
    simp only [List.foldl_cons, serialChars]
    rw [ih, hf]
    simp [List.append_assoc]

/-- Helper: from the clean inter-pair state, parsing one serialized pair
with a fresh nonempty key commits exactly that pair. -/
theorem parseLoop_pair (sep : String) (hs : sep = ";" ∨ sep = ",")
    (k v : String) (ret : Vars) (rest : List Char) (hk : k ≠ "")
    (hmem : ret.containsKey k = false) :
    parseLoop sep (cleanAcc ret) (pairChars sep k v ++ rest) =
      parseLoop sep (cleanAcc (ret ++ [(k, v)])) rest := by
  obtain ⟨sc, hdata, hsc⟩ :
      ∃ sc, sep.data = [sc] ∧ String.singleton sc = sep := by
    rcases hs with rfl | rfl
    · exact ⟨';', rfl, rfl⟩
    · exact ⟨',', rfl, rfl⟩
  have hklen : (k.length == 0) = false := by
    obtain ⟨kl⟩ := k
    cases kl with
    | nil => exact absurd rfl hk
    | cons a l => rfl
  have hbk : (⟨("" : String).data ++ k.data⟩ : String) = k :=
    String.ext (List.nil_append k.data)
  have hbv : (⟨("" : String).data ++ v.data⟩ : String) = v :=
    String.ext (List.nil_append v.data)
  simp only [cleanAcc, pairChars, hdata, List.append_assoc,
    List.cons_append, List.singleton_append, List.nil_append]
  rw [parseLoop_cons_ok sep _ _ _ _
    (parseStep_root_quote sep hs ret "" "" false)]
  rw [parseLoop_quoted_escChars sep k.data]
  rw [hbk]
  rw [parseLoop_cons_ok sep _ _ _ _
    (parseStep_quoted_close sep ret "" k false)]
  rw [parseLoop_cons_ok sep _ _ _ _
    (parseStep_root_eq sep hs ret "" k false)]
  rw [parseLoop_cons_ok sep _ _ _ _
    (parseStep_value_quote sep ret "" k false hklen)]
  rw [parseLoop_quoted_escChars sep v.data]
  rw [hbv]
  rw [parseLoop_cons_ok sep _ _ _ _
    (parseStep_quoted_close sep ret k v true)]
  rw [parseLoop_cons_ok sep _ _ _ _
    (parseStep_root_sep sep sc hsc ret k v hmem hklen)]

/-- Helper: from the clean state, parsing a whole serialized map with
fresh, nonempty, pairwise-distinct keys commits every pair in order. -/
theorem parseLoop_serialChars (sep : String) (hs : sep = ";" ∨ sep = ",") :
    ∀ (ev ret : Vars), (∀ p ∈ ev, p.1 ≠ "") →
      (ev.map Prod.fst).Nodup →
      (∀ p ∈ ev, ret.containsKey p.1 = false) →
      parseLoop sep (cleanAcc ret) (serialChars sep ev) =
        .ok (cleanAcc (ret ++ ev)) := by
  intro ev
  induction ev with
  | nil =>
    intro ret _ _ _
    simp [serialChars, parseLoop]
  | cons kv tl ih =>
    intro ret hkeys hnodup hdisj
    obtain ⟨k, v⟩ := kv
    have hk : k ≠ "" := hkeys (k, v) (List.mem_cons_self _ _)
    have hkb : (k != "") = true := by simpa using hk
    have hknotin : k ∉ tl.map Prod.fst := by
      have h := hnodup
      simp only [List.map_cons, List.nodup_cons] at h
      exact h.1
    simp only [serialChars, hkb, if_true]
    rw [parseLoop_pair sep hs k v ret (serialChars sep tl) hk
      (hdisj (k, v) (List.mem_cons_self _ _))]
    rw [ih (ret ++ [(k, v)]) (fun p hp => hkeys p (List.mem_cons_of_mem _ hp))
      (by simpa using hnodup.of_cons)
      ?hdisj2]
    · rw [List.append_assoc]
      rfl
    case hdisj2 =>
      intro p hp
      have h1 : (List.any ret fun q => q.1 == p.1) = false :=
        hdisj p (List.mem_cons_of_mem _ hp)
      have hkp : (k == p.1) = false := by
        simp only [beq_eq_false_iff_ne, ne_eq]
        intro he
        apply hknotin
        rw [he]
        exact List.mem_map_of_mem Prod.fst hp
      simp [Vars.containsKey, List.any_append, h1, hkp]

/-- Claim C9: for every Vars map with nonempty keys (distinct, as map keys
are) and either supported pair separator, parsing the serialized form is
the identity: `Parse (DelimitedString ev sep) sep` returns exactly `ev`
with no error, whatever characters the keys and values contain. -/
theorem parse_delimitedString_roundtrip (ev : Vars) (sep : String)
    (hsep : sep = ";" ∨ sep = ",") (hkeys : ∀ p ∈ ev, p.1 ≠ "")
    (hnodup : (ev.map Prod.fst).Nodup) :
    Parse (Vars.DelimitedString ev sep) sep = (ev, none) := by
  unfold Parse
  rw [delimitedString_data]
  have hinit : initAcc = cleanAcc [] := rfl
  rw [hinit]
  rw [parseLoop_serialChars sep hsep ev [] hkeys hnodup (fun p _ => rfl)]
  simp [parseFinish, cleanAcc]

/-- Witness for C9: a two-entry map whose second value contains a space,
the separator, '=', a quote and a backslash. -/
theorem parse_delimitedString_roundtrip_witness :
    Parse (Vars.DelimitedString [("A", "b c"), ("K", "x;=\"\\y")] ";") ";" =
      ([("A", "b c"), ("K", "x;=\"\\y")], none) :=
  parse_delimitedString_roundtrip [("A", "b c"), ("K", "x;=\"\\y")] ";"
    (Or.inl rfl) (by decide) (by decide)

end env
